import Mathlib

/-!
# WiseRate exchange-rate core: a shallow embedding

This file embeds the exchange-rate acquisition core of the WiseRate
repository (`src/wiserate/exchange.py`, `src/wiserate/utils.py`,
`src/wiserate/models.py`) in Lean and proves the claims of the
specification against it.

Modelling conventions:
* Python `Decimal` values are modelled by `PyDecimal` (sign, digit list,
  exponent), mirroring `decimal.Decimal.as_tuple()`; `str(Decimal)` and
  `Decimal(str)` are modelled by `pyDecStr` / `pyDecOfChars` following the
  to-scientific-string and to-number conversions of the decimal
  specification that CPython implements.
* Wall-clock instants are rational numbers of seconds; elapsed time between
  two instants is their difference.
* Python exceptions are modelled as values of the inductive type `PyExc`;
  `raise` becomes an `Except.error` result.
* File contents are modelled post-JSON-parse: a file system maps paths to
  the Python value that `json.loads` of the file body would yield.
-/

namespace WiseRate

/-! ## Digits and characters (model of Python's decimal string I/O) -/

/-- The character for a single decimal digit (`0`–`9`). -/
def digitChar (d : Nat) : Char :=
  match d with
  | 0 => '0' | 1 => '1' | 2 => '2' | 3 => '3' | 4 => '4'
  | 5 => '5' | 6 => '6' | 7 => '7' | 8 => '8' | _ => '9'

/-- The numeric value of a decimal-digit character. -/
def charDigit (c : Char) : Nat := c.toNat - 48

/-- Render a big-endian digit list as characters. -/
def digitChars (ds : List Nat) : List Char := ds.map digitChar

/-- Value of a big-endian digit list. -/
def digitsToNat (ds : List Nat) : Nat := ds.foldl (fun a d => 10 * a + d) 0

/-- Big-endian decimal digits of a natural number (`[0]` for zero). -/
def natDigits (n : Nat) : List Nat :=
  if n = 0 then [0] else (Nat.digits 10 n).reverse

/-! ## Python `Decimal` model

`PyDecimal` mirrors `Decimal.as_tuple()`: a sign flag, the coefficient as a
big-endian digit tuple, and an integer exponent. -/

/-- Model of a Python `decimal.Decimal` value, as in `as_tuple()`:
sign (`true` = negative), big-endian coefficient digits, exponent. -/
structure PyDecimal where
  sign : Bool
  digits : List Nat
  exp : Int
deriving DecidableEq, Repr

/-- Well-formedness of a `PyDecimal` as produced by the `Decimal`
constructor: a nonempty digit tuple of decimal digits with no leading zero
(except the single digit of a zero coefficient). -/
def decWF (d : PyDecimal) : Prop :=
  d.digits ≠ [] ∧ (∀ x ∈ d.digits, x < 10) ∧ (d.digits.head? = some 0 → d.digits = [0])

instance (d : PyDecimal) : Decidable (decWF d) := by
  unfold decWF; infer_instance

/-- The exponent suffix of Python's scientific decimal notation:
`E` followed by an explicit sign and the adjusted exponent's digits. -/
def expChars (adjusted : Int) : List Char :=
  'E' :: (if adjusted < 0 then '-' else '+') :: digitChars (natDigits adjusted.natAbs)

/-- Model of `str(Decimal)` for an unsigned coefficient/exponent pair,
following the to-scientific-string conversion: plain notation when
`exp ≤ 0` and the adjusted exponent is at least `-6`, scientific notation
otherwise. -/
def toSciChars (ds : List Nat) (exp : Int) : List Char :=
  let adjusted : Int := exp + ds.length - 1
  if exp ≤ 0 ∧ -6 ≤ adjusted then
    if exp = 0 then digitChars ds
    else if adjusted < 0 then
      '0' :: '.' :: (List.replicate (-(adjusted + 1)).toNat '0' ++ digitChars ds)
    else
      digitChars (ds.take (adjusted + 1).toNat) ++
        '.' :: digitChars (ds.drop (adjusted + 1).toNat)
  else
    (match ds with
      | [] => []
      | [d] => [digitChar d]
      | d :: rest => digitChar d :: '.' :: digitChars rest) ++ expChars adjusted

/-- Model of `str(Decimal)`: optional minus sign, then the unsigned body. -/
def pyDecStr (d : PyDecimal) : List Char :=
  (if d.sign then ['-'] else []) ++ toSciChars d.digits d.exp

/-! ### Model of the `Decimal(str)` constructor (to-number conversion) -/

/-- Consume an optional leading sign. -/
def parseSign (cs : List Char) : Bool × List Char :=
  match cs with
  | c :: rest =>
    if c = '-' then (true, rest) else if c = '+' then (false, rest) else (false, cs)
  | [] => (false, [])

/-- Consume a (possibly empty) run of digit characters. -/
def parseDigitsPart (cs : List Char) : List Nat × List Char :=
  ((cs.takeWhile Char.isDigit).map charDigit, cs.dropWhile Char.isDigit)

/-- Consume a fractional part: a dot followed by digits, or nothing. -/
def parseFrac (cs : List Char) : List Nat × List Char :=
  match cs with
  | c :: rest => if c = '.' then parseDigitsPart rest else ([], cs)
  | [] => ([], [])

/-- Parse the numeral after an `E`/`e` marker: optional sign and a nonempty
run of digits consuming the whole remainder. -/
def parseExpNum (cs : List Char) : Option Int :=
  let s := parseSign cs
  let p := parseDigitsPart s.2
  if p.1.isEmpty ∨ ¬p.2.isEmpty then none
  else some (if s.1 then -(digitsToNat p.1 : Int) else (digitsToNat p.1 : Int))

/-- Parse the optional exponent suffix; an empty remainder means exponent 0,
anything that is not an exponent marker is a syntax error. -/
def parseExpPart (cs : List Char) : Option Int :=
  match cs with
  | [] => some 0
  | c :: rest => if c = 'E' ∨ c = 'e' then parseExpNum rest else none

/-- Remove leading zeros from a coefficient digit tuple, keeping a single
zero digit when the coefficient is zero (as the `Decimal` constructor does). -/
def stripZeros (ds : List Nat) : List Nat :=
  let r := ds.dropWhile (· == 0)
  if r.isEmpty then [0] else r

/-- Model of `Decimal(<string>)`: sign, integer digits, optional fraction,
optional exponent; `none` models `decimal.InvalidOperation` (conversion
syntax). -/
def pyDecOfChars (cs : List Char) : Option PyDecimal :=
  let s := parseSign cs
  let ip := parseDigitsPart s.2
  let fp := parseFrac ip.2
  if ip.1.isEmpty ∧ fp.1.isEmpty then none
  else
    match parseExpPart fp.2 with
    | none => none
    | some e => some ⟨s.1, stripZeros (ip.1 ++ fp.1), e - fp.1.length⟩

/-- `Decimal.__le__ v 0`: a decimal is nonpositive iff its sign is negative
or its coefficient is zero. -/
def pyDecNonpos (d : PyDecimal) : Bool :=
  d.sign || digitsToNat d.digits == 0

/-- Rational value denoted by a `PyDecimal`. -/
def pyDecVal (d : PyDecimal) : ℚ :=
  (if d.sign then -1 else 1) * (digitsToNat d.digits : ℚ) * (10 : ℚ) ^ d.exp

/-! ### Lemmas: the decimal string round trip -/

theorem charDigit_digitChar {d : Nat} (h : d < 10) : charDigit (digitChar d) = d := by
  interval_cases d <;> rfl

theorem isDigit_digitChar {d : Nat} (h : d < 10) : (digitChar d).isDigit = true := by
  interval_cases d <;> rfl

theorem map_charDigit_digitChars (ds : List Nat) (h : ∀ d ∈ ds, d < 10) :
    (digitChars ds).map charDigit = ds := by
  induction ds with
  | nil => rfl
  | cons d t ih =>
    simp only [digitChars, List.map_cons, List.map_map] at *
    rw [List.cons_eq_cons]
    exact ⟨charDigit_digitChar (h d (by simp)), ih fun x hx => h x (by simp [hx])⟩

theorem takeWhile_digitChars_append (ds : List Nat) (rest : List Char)
    (h : ∀ d ∈ ds, d < 10) (hrest : ∀ c, rest.head? = some c → c.isDigit = false) :
    (digitChars ds ++ rest).takeWhile Char.isDigit = digitChars ds ∧
    (digitChars ds ++ rest).dropWhile Char.isDigit = rest := by
  induction ds with
  | nil =>
    simp only [digitChars, List.map_nil, List.nil_append]
    cases rest with
    | nil => exact ⟨rfl, rfl⟩
    | cons c t =>
      have hc := hrest c rfl
      exact ⟨List.takeWhile_cons_of_neg (by simp [hc]),
             List.dropWhile_cons_of_neg (by simp [hc])⟩
  | cons d t ih =>
    have hd : d < 10 := h d (by simp)
    obtain ⟨ih1, ih2⟩ := ih (fun x hx => h x (by simp [hx]))
    refine ⟨?_, ?_⟩
    · show List.takeWhile Char.isDigit (digitChar d :: (digitChars t ++ rest)) = _
      rw [List.takeWhile_cons_of_pos (isDigit_digitChar hd), ih1]
      rfl
    · show List.dropWhile Char.isDigit (digitChar d :: (digitChars t ++ rest)) = _
      rw [List.dropWhile_cons_of_pos (isDigit_digitChar hd), ih2]

theorem parseDigitsPart_append (ds : List Nat) (rest : List Char)
    (h : ∀ d ∈ ds, d < 10) (hrest : ∀ c, rest.head? = some c → c.isDigit = false) :
    parseDigitsPart (digitChars ds ++ rest) = (ds, rest) := by
  obtain ⟨h1, h2⟩ := takeWhile_digitChars_append ds rest h hrest
  simp only [parseDigitsPart, h1, h2, map_charDigit_digitChars ds h]

theorem parseDigitsPart_digitChars (ds : List Nat) (h : ∀ d ∈ ds, d < 10) :
    parseDigitsPart (digitChars ds) = (ds, []) := by
  have := parseDigitsPart_append ds [] h (fun c hc => by cases hc)
  simpa using this

theorem parseSign_of_isDigit (cs : List Char)
    (h : ∀ c, cs.head? = some c → c.isDigit = true) : parseSign cs = (false, cs) := by
  cases cs with
  | nil => rfl
  | cons c t =>
    have hc := h c rfl
    have h1 : c ≠ '-' := fun e => by subst e; exact absurd hc (by decide)
    have h2 : c ≠ '+' := fun e => by subst e; exact absurd hc (by decide)
    simp [parseSign, h1, h2]

theorem natDigits_lt (n : Nat) : ∀ d ∈ natDigits n, d < 10 := by
  unfold natDigits
  split
  · intro d hd; simp at hd; omega
  · intro d hd
    rw [List.mem_reverse] at hd
    exact Nat.digits_lt_base (by norm_num) hd

theorem natDigits_ne_nil (n : Nat) : natDigits n ≠ [] := by
  unfold natDigits
  split
  · simp
  · simpa using Nat.digits_ne_nil_iff_ne_zero.mpr (by assumption)

theorem foldl_reverse_ofDigits (L : List Nat) (a : Nat) :
    (L.reverse).foldl (fun a d => 10 * a + d) a = a * 10 ^ L.length + Nat.ofDigits 10 L := by
  induction L generalizing a with
  | nil => simp [Nat.ofDigits]
  | cons x xs ih =>
    simp only [List.reverse_cons, List.foldl_append, List.foldl_cons, List.foldl_nil, ih,
      Nat.ofDigits_cons, List.length_cons, pow_succ]
    ring

theorem digitsToNat_natDigits (n : Nat) : digitsToNat (natDigits n) = n := by
  unfold natDigits digitsToNat
  split
  · simp_all
  · rw [foldl_reverse_ofDigits]
    simp [Nat.ofDigits_digits]

theorem parseExpPart_expChars (a : Int) : parseExpPart (expChars a) = some a := by
  have hdig := natDigits_lt a.natAbs
  have hne := natDigits_ne_nil a.natAbs
  by_cases ha : a < 0
  · rw [show expChars a = 'E' :: '-' :: digitChars (natDigits a.natAbs) by
      simp [expChars, ha]]
    have hs : parseSign ('-' :: digitChars (natDigits a.natAbs)) =
        (true, digitChars (natDigits a.natAbs)) := by simp [parseSign]
    simp only [parseExpPart, parseExpNum, hs, parseDigitsPart_digitChars _ hdig,
      digitsToNat_natDigits]
    rw [if_pos (Or.inl trivial), if_neg (by simp [List.isEmpty_iff, hne])]
    simp only [if_pos trivial, Option.some.injEq]
    omega
  · rw [show expChars a = 'E' :: '+' :: digitChars (natDigits a.natAbs) by
      simp [expChars, ha]]
    have hs : parseSign ('+' :: digitChars (natDigits a.natAbs)) =
        (false, digitChars (natDigits a.natAbs)) := by simp [parseSign]
    simp only [parseExpPart, parseExpNum, hs, parseDigitsPart_digitChars _ hdig,
      digitsToNat_natDigits]
    rw [if_pos (Or.inl trivial), if_neg (by simp [List.isEmpty_iff, hne])]
    simp only [Bool.false_eq_true, if_false, Option.some.injEq]
    omega

theorem parseExpPart_nil : parseExpPart [] = some 0 := rfl

theorem expChars_head (a : Int) : (expChars a).head? = some 'E' := rfl

theorem parseFrac_expChars (a : Int) (t : List Char) (h : t = expChars a) :
    parseFrac t = ([], t) := by
  subst h; simp [parseFrac, expChars]

theorem stripZeros_wf (ds : List Nat) (h1 : ds ≠ [])
    (h3 : ds.head? = some 0 → ds = [0]) : stripZeros ds = ds := by
  cases ds with
  | nil => exact absurd rfl h1
  | cons x t =>
    by_cases hx : x = 0
    · subst hx
      have ht : t = [] := by simpa using h3 rfl
      subst ht; rfl
    · simp [stripZeros, List.dropWhile_cons, hx]

theorem dropWhile_zeros_append (m : Nat) (ds : List Nat) :
    (List.replicate m 0 ++ ds).dropWhile (· == 0) = ds.dropWhile (· == 0) := by
  induction m with
  | zero => rfl
  | succ k ih => simp [List.replicate_succ, List.dropWhile_cons, ih]

theorem stripZeros_zeros_append (m : Nat) (ds : List Nat) :
    stripZeros (List.replicate m 0 ++ ds) = stripZeros ds := by
  simp [stripZeros, dropWhile_zeros_append]

theorem expChars_head_not_digit (a : Int) :
    ∀ c, (expChars a).head? = some c → c.isDigit = false := by
  intro c hc
  rw [expChars_head a] at hc
  cases hc
  decide

theorem parseFrac_dot (t : List Char) : parseFrac ('.' :: t) = parseDigitsPart t := by
  simp [parseFrac]

theorem parseFrac_not_dot (c : Char) (t : List Char) (h : c ≠ '.') :
    parseFrac (c :: t) = ([], c :: t) := by
  simp [parseFrac, h]

theorem parseSign_signed (sign : Bool) (body : List Char) (c : Char) (t : List Char)
    (hbody : body = c :: t) (hc : c.isDigit = true) :
    parseSign ((if sign then ['-'] else []) ++ body) = (sign, body) := by
  cases sign
  · simp only [Bool.false_eq_true, if_false, List.nil_append]
    refine parseSign_of_isDigit body ?_
    intro c' hc'
    rw [hbody] at hc'
    cases hc'
    exact hc
  · simp [parseSign]

theorem pyDecOfChars_eq (cs : List Char) (sign : Bool) (body : List Char)
    (ints fracs : List Nat) (rest2 rest3 : List Char) (e : Int)
    (h1 : parseSign cs = (sign, body))
    (h2 : parseDigitsPart body = (ints, rest2))
    (h3 : parseFrac rest2 = (fracs, rest3))
    (h4 : parseExpPart rest3 = some e)
    (h5 : ¬(ints.isEmpty ∧ fracs.isEmpty)) :
    pyDecOfChars cs = some ⟨sign, stripZeros (ints ++ fracs), e - fracs.length⟩ := by
  simp only [pyDecOfChars, h1, h2, h3, h4, if_neg h5]

/-- The decimal round trip: converting a well-formed `Decimal` to its string
(`str`) and back through the `Decimal` constructor recovers the value
exactly — sign, coefficient digits and exponent all unchanged. -/
theorem pyDec_roundtrip (d : PyDecimal) (h : decWF d) :
    pyDecOfChars (pyDecStr d) = some d := by
  obtain ⟨sign, ds, exp⟩ := d
  obtain ⟨hne, hlt, hlz⟩ := h
  simp only at hne hlt hlz
  by_cases hA : exp ≤ 0 ∧ -6 ≤ exp + (ds.length : Int) - 1
  · by_cases h0 : exp = 0
    · -- plain integer notation
      have hbody : toSciChars ds exp = digitChars ds := by
        simp only [toSciChars]
        rw [if_pos hA, if_pos h0]
      obtain ⟨d0, t0, hds⟩ : ∃ d0 t0, ds = d0 :: t0 := by
        cases ds with
        | nil => exact absurd rfl hne
        | cons a b => exact ⟨a, b, rfl⟩
      have hd0 : d0 < 10 := hlt d0 (by simp [hds])
      have hsign : parseSign (pyDecStr ⟨sign, ds, exp⟩) = (sign, digitChars ds) := by
        rw [pyDecStr]
        simp only [hbody]
        exact parseSign_signed sign _ (digitChar d0) (digitChars t0)
          (by rw [hds]; rfl) (isDigit_digitChar hd0)
      rw [pyDecOfChars_eq _ sign (digitChars ds) ds [] [] [] 0 hsign
        (parseDigitsPart_digitChars ds hlt) rfl rfl
        (by simp [List.isEmpty_iff, hne])]
      rw [stripZeros_wf (ds ++ []) (by simp [hne]) (by simpa using hlz)]
      simp [h0]
    · -- fractional notation with nonnegative adjusted exponent
      by_cases hadj : exp + (ds.length : Int) - 1 < 0
      · -- 0.00…0digits form
        have hbody : toSciChars ds exp =
            '0' :: '.' :: (List.replicate (-(exp + (ds.length : Int) - 1 + 1)).toNat '0' ++
              digitChars ds) := by
          simp only [toSciChars]
          rw [if_pos hA, if_neg h0, if_pos hadj]
        set z := (-(exp + (ds.length : Int) - 1 + 1)).toNat with hz
        have hsign : parseSign (pyDecStr ⟨sign, ds, exp⟩) =
            (sign, toSciChars ds exp) := by
          rw [pyDecStr]
          exact parseSign_signed sign _ '0' _ hbody (by decide)
        have hrepl : List.replicate z '0' ++ digitChars ds =
            digitChars (List.replicate z 0 ++ ds) := by
          unfold digitChars
          rw [List.map_append, List.map_replicate]
          rfl
        have h2 : parseDigitsPart (toSciChars ds exp) =
            ([0], '.' :: (List.replicate z '0' ++ digitChars ds)) := by
          rw [hbody]
          exact parseDigitsPart_append [0] _ (by simp) (by intro c hc; cases hc; decide)
        have h3 : parseFrac ('.' :: (List.replicate z '0' ++ digitChars ds)) =
            (List.replicate z 0 ++ ds, []) := by
          rw [parseFrac_dot, hrepl]
          refine parseDigitsPart_digitChars _ ?_
          intro x hx
          rcases List.mem_append.mp hx with hx | hx
          · simp at hx; omega
          · exact hlt x hx
        rw [pyDecOfChars_eq _ sign (toSciChars ds exp) [0] (List.replicate z 0 ++ ds)
          ('.' :: (List.replicate z '0' ++ digitChars ds)) [] 0 hsign h2 h3 rfl
          (by simp [List.isEmpty_iff, hne])]
        have hstrip : stripZeros ([0] ++ (List.replicate z 0 ++ ds)) = ds := by
          have : ([0] ++ (List.replicate z 0 ++ ds)) = List.replicate (z + 1) 0 ++ ds := by
            simp [List.replicate_succ]
          rw [this, stripZeros_zeros_append, stripZeros_wf ds hne hlz]
        rw [hstrip]
        simp only [List.length_append, List.length_replicate, Option.some.injEq,
          PyDecimal.mk.injEq, true_and]
        omega
      · -- digits.digits form
        obtain ⟨hA1, hA2⟩ := hA
        have hA : exp ≤ 0 ∧ -6 ≤ exp + (ds.length : Int) - 1 := ⟨hA1, hA2⟩
        have hk1 : (1 : Int) ≤ exp + (ds.length : Int) - 1 + 1 := by omega
        set k := (exp + (ds.length : Int) - 1 + 1).toNat with hkdef
        have hkpos : 1 ≤ k := by omega
        have hexp : exp ≤ -1 := by omega
        have hklt : k < ds.length := by omega
        have hbody : toSciChars ds exp =
            digitChars (ds.take k) ++ '.' :: digitChars (ds.drop k) := by
          simp only [toSciChars]
          rw [if_pos hA, if_neg h0, if_neg hadj]
        obtain ⟨d0, t0, hds⟩ : ∃ d0 t0, ds = d0 :: t0 := by
          cases ds with
          | nil => exact absurd rfl hne
          | cons a b => exact ⟨a, b, rfl⟩
        have hd0 : d0 < 10 := hlt d0 (by simp [hds])
        have htake : ∃ t1, ds.take k = d0 :: t1 := by
          obtain ⟨m, hm⟩ : ∃ m, k = m + 1 := ⟨k - 1, by omega⟩
          refine ⟨t0.take m, ?_⟩
          rw [hds, hm]
          simp
        obtain ⟨t1, ht1⟩ := htake
        have hsign : parseSign (pyDecStr ⟨sign, ds, exp⟩) =
            (sign, toSciChars ds exp) := by
          rw [pyDecStr]
          refine parseSign_signed sign _ (digitChar d0)
            (digitChars t1 ++ '.' :: digitChars (List.drop k ds)) ?_ (isDigit_digitChar hd0)
          rw [hbody, ht1]
          rfl
        have h2 : parseDigitsPart (toSciChars ds exp) =
            (ds.take k, '.' :: digitChars (ds.drop k)) := by
          rw [hbody]
          exact parseDigitsPart_append _ _ (fun x hx => hlt x (List.take_subset _ _ hx))
            (by intro c hc; cases hc; decide)
        have h3 : parseFrac ('.' :: digitChars (ds.drop k)) = (ds.drop k, []) := by
          rw [parseFrac_dot]
          exact parseDigitsPart_digitChars _ (fun x hx => hlt x (List.drop_subset _ _ hx))
        rw [pyDecOfChars_eq _ sign (toSciChars ds exp) (ds.take k) (ds.drop k)
          ('.' :: digitChars (ds.drop k)) [] 0 hsign h2 h3 rfl
          (by simp [List.isEmpty_iff, ht1])]
        rw [List.take_append_drop k ds]
        rw [stripZeros_wf ds hne hlz]
        simp only [List.length_drop, Option.some.injEq, PyDecimal.mk.injEq, true_and]
        omega
  · -- scientific notation
    match ds, hne with
    | [d0], _ =>
      have hd0 : d0 < 10 := hlt d0 (by simp)
      have hbody : toSciChars [d0] exp = digitChar d0 :: expChars (exp + 1 - 1) := by
        simp only [toSciChars, List.length_singleton]
        rw [if_neg (by push_cast; exact hA)]
        push_cast
        rfl
      have hsign : parseSign (pyDecStr ⟨sign, [d0], exp⟩) =
          (sign, toSciChars [d0] exp) := by
        rw [pyDecStr]
        exact parseSign_signed sign _ (digitChar d0) _ hbody (isDigit_digitChar hd0)
      have h2 : parseDigitsPart (toSciChars [d0] exp) =
          ([d0], expChars (exp + 1 - 1)) := by
        rw [hbody]
        exact parseDigitsPart_append [d0] _ (by simpa using hd0)
          (expChars_head_not_digit _)
      have h3 : parseFrac (expChars (exp + 1 - 1)) = ([], expChars (exp + 1 - 1)) := by
        rw [show expChars (exp + 1 - 1) = 'E' ::
          ((if exp + 1 - 1 < 0 then '-' else '+') ::
            digitChars (natDigits (exp + 1 - 1).natAbs)) from rfl]
        exact parseFrac_not_dot _ _ (by decide)
      rw [pyDecOfChars_eq _ sign (toSciChars [d0] exp) [d0] []
        (expChars (exp + 1 - 1)) (expChars (exp + 1 - 1)) (exp + 1 - 1) hsign h2 h3
        (parseExpPart_expChars _) (by simp [List.isEmpty_iff])]
      rw [stripZeros_wf ([d0] ++ []) (by simp) (by simp only [List.append_nil]; exact hlz)]
      simp
    | d0 :: d1 :: t0, _ =>
      have hd0 : d0 < 10 := hlt d0 (by simp)
      set rest := d1 :: t0 with hrest
      set adj := exp + ((d0 :: rest).length : Int) - 1 with hadj
      have hbody : toSciChars (d0 :: rest) exp =
          digitChar d0 :: '.' :: digitChars rest ++ expChars adj := by
        simp only [toSciChars]
        rw [if_neg hA]
      have hsign : parseSign (pyDecStr ⟨sign, d0 :: rest, exp⟩) =
          (sign, toSciChars (d0 :: rest) exp) := by
        rw [pyDecStr]
        exact parseSign_signed sign _ (digitChar d0) _ hbody (isDigit_digitChar hd0)
      have h2 : parseDigitsPart (toSciChars (d0 :: rest) exp) =
          ([d0], '.' :: (digitChars rest ++ expChars adj)) := by
        rw [hbody]
        have := parseDigitsPart_append [d0] ('.' :: (digitChars rest ++ expChars adj))
          (by simpa using hd0) (by intro c hc; cases hc; decide)
        simpa using this
      have h3 : parseFrac ('.' :: (digitChars rest ++ expChars adj)) =
          (rest, expChars adj) := by
        rw [parseFrac_dot]
        exact parseDigitsPart_append rest _ (fun x hx => hlt x (by simp [hx]))
          (expChars_head_not_digit _)
      rw [pyDecOfChars_eq _ sign (toSciChars (d0 :: rest) exp) [d0] rest
        ('.' :: (digitChars rest ++ expChars adj)) (expChars adj) adj hsign h2 h3
        (parseExpPart_expChars _) (by simp [List.isEmpty_iff])]
      have hstrip : stripZeros ([d0] ++ rest) = d0 :: rest := by
        refine stripZeros_wf _ (by simp) ?_
        intro hh
        have : d0 = 0 := by simpa using hh
        subst this
        have := hlz rfl
        simp [hrest] at this
      rw [hstrip]
      simp only [Option.some.injEq, PyDecimal.mk.injEq, true_and, List.length_cons]
      rw [hadj]
      simp only [List.length_cons]
      push_cast
      omega

/-! ## Python exceptions and values -/

/-- The Python exception classes that the embedded code can raise or catch.
`invalidOperation` is `decimal.InvalidOperation`, whose base class is
`ArithmeticError` (not `ValueError`). -/
inductive PyExc
  | apiError (msg : String)
  | cacheError (msg : String)
  | validationError
  | keyError
  | valueError
  | invalidOperation
  | typeError
  | osError
deriving DecidableEq, Repr

/-- A short description of an exception, standing in for `str(e)` when the
code interpolates an exception into a wrapper message. -/
def PyExc.name : PyExc → String
  | .apiError m => "APIError: " ++ m
  | .cacheError m => "CacheError: " ++ m
  | .validationError => "ValidationError"
  | .keyError => "KeyError"
  | .valueError => "ValueError"
  | .invalidOperation => "InvalidOperation"
  | .typeError => "TypeError"
  | .osError => "OSError"

/-- A Python value as it can appear in a (parsed) JSON document or be
passed to `json.dumps`; `obj` stands for any object with no JSON encoding
(a `Decimal` or `datetime` instance, a set, ...). -/
inductive PyVal
  | none
  | bool (b : Bool)
  | int (n : Int)
  | str (s : String)
  | list (xs : List PyVal)
  | dict (xs : List (String × PyVal))
  | obj (tag : String)
deriving Repr

mutual

/-- Whether `json.dumps` accepts the value (no `obj` anywhere inside). -/
def PyVal.serializable : PyVal → Bool
  | .none => true
  | .bool _ => true
  | .int _ => true
  | .str _ => true
  | .list xs => serializableList xs
  | .dict xs => serializableItems xs
  | .obj _ => false

/-- All values of a JSON array are serializable. -/
def serializableList : List PyVal → Bool
  | [] => true
  | v :: t => v.serializable && serializableList t

/-- All values of a JSON object are serializable. -/
def serializableItems : List (String × PyVal) → Bool
  | [] => true
  | (_, v) :: t => v.serializable && serializableItems t

end

/-- Python `dict` lookup (insertion-ordered association list). -/
def dictGet {α : Type} (xs : List (String × α)) (k : String) : Option α :=
  match xs with
  | [] => Option.none
  | (k', v) :: t => if k' = k then some v else dictGet t k

/-- Python `dict` item assignment: update in place, else append. -/
def dictSet {α : Type} (xs : List (String × α)) (k : String) (v : α) :
    List (String × α) :=
  match xs with
  | [] => [(k, v)]
  | (k', v') :: t => if k' = k then (k', v) :: t else (k', v') :: dictSet t k v

/-! ## The file system and `utils.py` JSON persistence -/

/-- The file system, mapping paths to the (parsed) JSON document a file
holds. -/
structure FS where
  files : List (String × PyVal)
deriving Repr

def FS.read (fs : FS) (path : String) : Option PyVal := dictGet fs.files path

def FS.write (fs : FS) (path : String) (v : PyVal) : FS :=
  ⟨dictSet fs.files path v⟩

def FS.remove (fs : FS) (path : String) : FS :=
  ⟨fs.files.filter (fun p => p.1 ≠ path)⟩

/-- `shutil.move`/`Path.replace` of an existing file onto a destination:
atomic rename. -/
def FS.rename (fs : FS) (src dst : String) : FS :=
  match fs.read src with
  | some v => (fs.remove src).write dst v
  | Option.none => fs

/-- Model of `load_json_file_async` (`utils.py`): the parsed object if the
file exists and its JSON root is a dict, else the default `{}`.  (File
bodies are modelled post-parse, so the unreadable-file, oversized-file and
JSON-syntax-error cases — which likewise fall back to the default — are
subsumed by the absent/non-dict cases.) -/
def load_json_file_async (fs : FS) (path : String) : List (String × PyVal) :=
  match fs.read path with
  | some (.dict xs) => xs
  | _ => []

/-- Model of `save_json_file_async` (`utils.py`): check serializability
before touching disk (raising `ValueError` there), then write a `.tmp`
temp file next to the destination and atomically rename it over the
destination.  `osWriteFails` injects an OS-level failure of the temp-file
write; the cleanup handler then removes the temp file and the outer
handler re-raises as `OSError`. -/
def save_json_file_async (fs : FS) (path : String) (data : PyVal)
    (osWriteFails : Bool) : Except PyExc Unit × FS :=
  if ¬data.serializable then (.error .valueError, fs)
  else
    let temp := path ++ ".tmp"
    if osWriteFails then
      (.error .osError, (FS.write fs temp data).remove temp)
    else
      (.ok (), (FS.write fs temp data).rename temp path)

/-! ## Timestamps

A `datetime` is identified with its `isoformat()` string (injective on
aware datetimes), so `fromisoformat` validates the string and returns it;
`isoValid` recognizes the ISO-8601 shapes involved
(`YYYY-MM-DDTHH:MM:SS[.ffffff][±HH:MM]`). -/

/-- Consume exactly `n` digit characters. -/
def digitsRun (cs : List Char) (n : Nat) : Option (List Char) :=
  match n, cs with
  | 0, cs => some cs
  | n + 1, c :: t => if c.isDigit then digitsRun t n else Option.none
  | _ + 1, [] => Option.none

/-- Consume one expected literal character. -/
def lit (c : Char) (cs : List Char) : Option (List Char) :=
  match cs with
  | c' :: t => if c' = c then some t else Option.none
  | [] => Option.none

/-- Consume `YYYY-MM-DDTHH:MM:SS`. -/
def isoDateTime (cs : List Char) : Option (List Char) := do
  let r ← digitsRun cs 4
  let r ← lit '-' r
  let r ← digitsRun r 2
  let r ← lit '-' r
  let r ← digitsRun r 2
  let r ← lit 'T' r
  let r ← digitsRun r 2
  let r ← lit ':' r
  let r ← digitsRun r 2
  let r ← lit ':' r
  digitsRun r 2

/-- Consume an optional fractional-seconds part (`.` plus 1–6 digits). -/
def isoFrac (cs : List Char) : Option (List Char) :=
  match cs with
  | '.' :: t =>
    let ds := t.takeWhile Char.isDigit
    if 1 ≤ ds.length ∧ ds.length ≤ 6 then some (t.dropWhile Char.isDigit)
    else Option.none
  | _ => some cs

/-- Recognize a trailing `HH:MM` UTC-offset body. -/
def isoTzTail (cs : List Char) : Bool :=
  match digitsRun cs 2 with
  | some (':' :: r) =>
    (match digitsRun r 2 with
     | some [] => true
     | _ => false)
  | _ => false

/-- Recognizer for the ISO-8601 strings `datetime.fromisoformat` accepts,
restricted to the shapes `datetime.isoformat()` writes. -/
def isoValid (s : String) : Bool :=
  match isoDateTime s.data with
  | Option.none => false
  | some r =>
    match isoFrac r with
    | Option.none => false
    | some [] => true
    | some (c :: t) => decide (c = '+' ∨ c = '-') && isoTzTail t

/-! ## `models.ExchangeRate` and the cache entry codec (`exchange.py`) -/

/-- The fields of `models.ExchangeRate` the cache path reads and writes:
currency codes, a positive decimal rate, the timestamp (identified with
its `isoformat()` string).  The optional `source_name`/`target_name`
fields are omitted: the cache serialization never writes them. -/
structure ExchangeRate where
  source : String
  target : String
  rate : PyDecimal
  timestamp : String
deriving DecidableEq, Repr

/-- The cache key `f"{source}_{target}"`. -/
def cacheKeyOf (source target : String) : String := source ++ "_" ++ target

def ExchangeRate.key (r : ExchangeRate) : String := cacheKeyOf r.source r.target

/-- The dict written for one rate by `_save_to_cache` and
`_save_all_to_cache`: source, target, `str(rate)` and the timestamp's
`isoformat()` string. -/
def rateEntry (r : ExchangeRate) : PyVal :=
  .dict [("source", .str r.source), ("target", .str r.target),
         ("rate", .str (String.mk (pyDecStr r.rate))), ("timestamp", .str r.timestamp)]

/-- `data[k]`: `KeyError` for a missing key, `TypeError` when `data` is not
subscriptable by strings. -/
def getItem (data : PyVal) (k : String) : Except PyExc PyVal :=
  match data with
  | .dict xs =>
    (match dictGet xs k with
     | some v => .ok v
     | Option.none => .error .keyError)
  | _ => .error .typeError

/-- `Decimal(v)` applied to a cache-entry value: parse a string (raising
`InvalidOperation` on conversion syntax), accept ints and bools exactly,
`TypeError` otherwise. -/
def pyDecimalOfVal (v : PyVal) : Except PyExc PyDecimal :=
  match v with
  | .str s =>
    (match pyDecOfChars s.data with
     | some d => .ok d
     | Option.none => .error .invalidOperation)
  | .int n => .ok ⟨decide (n < 0), natDigits n.natAbs, 0⟩
  | .bool b => .ok ⟨false, [if b then 1 else 0], 0⟩
  | _ => .error .typeError

/-- `datetime.fromisoformat(v)`: `ValueError` on a malformed string,
`TypeError` on a non-string. -/
def fromIsoFormat (v : PyVal) : Except PyExc String :=
  match v with
  | .str s => if isoValid s then .ok s else .error .valueError
  | _ => .error .typeError

/-- Construction of `ExchangeRate(...)` with its pydantic validation:
`source`/`target` must be 3-character strings and the `rate` validator
rejects `rate <= 0`; any violation raises pydantic `ValidationError`. -/
def mkExchangeRate (sv tv : PyVal) (rate : PyDecimal) (ts : String) :
    Except PyExc ExchangeRate :=
  match sv, tv with
  | .str s, .str t =>
    if s.length = 3 ∧ t.length = 3 ∧ pyDecNonpos rate = false then .ok ⟨s, t, rate, ts⟩
    else .error .validationError
  | _, _ => .error .validationError

/-- One iteration body of the `_load_from_cache` loop: evaluate the
`ExchangeRate(...)` arguments in source order — `data["source"]`,
`data["target"]`, `Decimal(data["rate"])`,
`datetime.fromisoformat(data["timestamp"])` — then validate the model. -/
def parseEntry (data : PyVal) : Except PyExc ExchangeRate := do
  let sv ← getItem data "source"
  let tv ← getItem data "target"
  let rv ← getItem data "rate"
  let rate ← pyDecimalOfVal rv
  let tsv ← getItem data "timestamp"
  let ts ← fromIsoFormat tsv
  mkExchangeRate sv tv rate ts

/-- The exception classes the per-entry handler in `_load_from_cache`
catches: `(ValidationError, KeyError, ValueError)`.
`decimal.InvalidOperation` is an `ArithmeticError`, not a `ValueError`,
so it is not caught; neither is `TypeError`. -/
def caughtPerEntry (e : PyExc) : Bool :=
  match e with
  | .validationError => true
  | .keyError => true
  | .valueError => true
  | _ => false

/-- The entry loop of `_load_from_cache`: skip an entry whose construction
raises a caught class (logging a warning), keep the rest; any other
exception aborts the loop. -/
def loadRatesLoop (entries : List (String × PyVal)) :
    Except PyExc (List ExchangeRate) :=
  match entries with
  | [] => .ok []
  | (_, data) :: t =>
    match parseEntry data with
    | .ok r => (loadRatesLoop t).map (r :: ·)
    | .error e => if caughtPerEntry e then loadRatesLoop t else .error e

/-- Model of `_load_from_cache`: read the cache file and run the entry
loop; an uncaught exception is wrapped in `CacheError` by the outer
handler. -/
def loadFromCache (fs : FS) (currenciesFile : String) :
    Except PyExc (List ExchangeRate) :=
  match loadRatesLoop (load_json_file_async fs currenciesFile) with
  | .ok rs => .ok rs
  | .error e => .error (.cacheError ("Failed to load rates from cache: " ++ e.name))

/-- Model of `_save_to_cache`: load the current cache file (default `{}`),
merge this rate's entry under its key, save atomically; any failure is
wrapped in `CacheError`. -/
def saveToCache (fs : FS) (currenciesFile : String) (r : ExchangeRate)
    (osWriteFails : Bool) : Except PyExc Unit × FS :=
  let cacheData := load_json_file_async fs currenciesFile
  let cacheData := dictSet cacheData r.key (rateEntry r)
  match save_json_file_async fs currenciesFile (.dict cacheData) osWriteFails with
  | (.ok _, fs') => (.ok (), fs')
  | (.error e, fs') =>
    (.error (.cacheError ("Failed to save rate to cache: " ++ e.name)), fs')

/-- Model of `_save_all_to_cache`: build the whole mapping from the given
rates and save it in one atomic write. -/
def saveAllToCache (fs : FS) (currenciesFile : String)
    (rates : List ExchangeRate) (osWriteFails : Bool) : Except PyExc Unit × FS :=
  let cacheData := rates.foldl (fun acc r => dictSet acc r.key (rateEntry r)) []
  match save_json_file_async fs currenciesFile (.dict cacheData) osWriteFails with
  | (.ok _, fs') => (.ok (), fs')
  | (.error e, fs') =>
    (.error (.cacheError ("Failed to save all rates to cache: " ++ e.name)), fs')

/-- Well-formedness of an in-memory rate as the fetch path or a prior load
produces it: valid 3-letter-length codes, a constructor-normalized
positive decimal, a valid ISO timestamp string. -/
def wfRate (r : ExchangeRate) : Prop :=
  r.source.length = 3 ∧ r.target.length = 3 ∧ decWF r.rate ∧
  pyDecNonpos r.rate = false ∧ isoValid r.timestamp = true

instance (r : ExchangeRate) : Decidable (wfRate r) := by
  unfold wfRate; infer_instance

/-! ## `RateLimiter` (`exchange.py`, lines 21–47) -/

/-- Python `int(q)`: truncation toward zero. -/
def pyInt (q : ℚ) : Int := if q < 0 then -⌊-q⌋ else ⌊q⌋

/-- The `RateLimiter` state: `requests_per_minute` (the capacity), the
current token count — an integer throughout, since the initial value is
the int capacity and the refill uses `int(...)` — and `last_refill`. -/
structure LimiterState where
  requestsPerMinute : Int
  tokens : Int
  lastRefill : ℚ
deriving DecidableEq, Repr

/-- `RateLimiter.__init__`. -/
def LimiterState.init (requestsPerMinute : Int) (now : ℚ) : LimiterState :=
  ⟨requestsPerMinute, requestsPerMinute, now⟩

/-- The refill amount `acquire` computes:
`int(time_passed * self.requests_per_minute / 60)`. -/
def tokensToAdd (s : LimiterState) (now : ℚ) : Int :=
  pyInt ((now - s.lastRefill) * s.requestsPerMinute / 60)

/-- The refill amount as the specification words it: the exact fractional
quantity `elapsed_seconds * capacity / 60`.  This definition follows the
spec's sentence, for comparison with the code's `int`-truncated refill. -/
def specFractionalRefill (capacity : Int) (elapsedSeconds : ℚ) : ℚ :=
  elapsedSeconds * capacity / 60

/-- One `acquire` call observed at instant `now`: refill (truncated,
capped at capacity), update `last_refill`, sleep `60/capacity` and credit
one token if none is available, then consume one token.  Returns the new
state and the slept duration. -/
def RateLimiter.acquire (s : LimiterState) (now : ℚ) : LimiterState × ℚ :=
  let tokens1 := min s.requestsPerMinute (s.tokens + tokensToAdd s now)
  if tokens1 ≤ 0 then
    ({ s with tokens := (tokens1 + 1) - 1, lastRefill := now },
      60 / (s.requestsPerMinute : ℚ))
  else
    ({ s with tokens := tokens1 - 1, lastRefill := now }, 0)

/-! ## `retry_with_backoff` (`utils.py`, lines 191–201) -/

/-- The observable trace of one `retry_with_backoff` call: the returned or
raised outcome (`Option.none` models the `None` returned when the loop
body never runs), the number of invocations of `func`, and the list of
back-off sleeps performed. -/
structure RetryTrace (ε α : Type) where
  result : Option (Except ε α)
  calls : Nat
  delays : List ℚ
deriving Repr

/-- The retry loop from the attempt numbered `attempt` with `remaining`
iterations left (`attempt == max_retries - 1` exactly when
`remaining = 1`); `f k` is the outcome of the `k`-th invocation of
`func`. -/
def retrySim (f : Nat → Except ε α) (baseDelay : ℚ) :
    Nat → Nat → RetryTrace ε α
  | 0, _ => ⟨Option.none, 0, []⟩
  | remaining + 1, attempt =>
    match f attempt with
    | .ok a => ⟨some (.ok a), 1, []⟩
    | .error e =>
      if remaining = 0 then ⟨some (.error e), 1, []⟩
      else
        let t := retrySim f baseDelay remaining (attempt + 1)
        ⟨t.result, t.calls + 1, baseDelay * 2 ^ attempt :: t.delays⟩

/-- Model of `retry_with_backoff(func, max_retries, base_delay)`. -/
def retry_with_backoff (f : Nat → Except ε α) (maxRetries : Nat)
    (baseDelay : ℚ) : RetryTrace ε α :=
  retrySim f baseDelay maxRetries 0

/-! ## `ExchangeRateService.get_exchange_rate` (`exchange.py`, lines 82–126) -/

/-- The service state `get_exchange_rate` touches: the in-memory `_cache`,
the single global `_last_update` timestamp, the keys of
`_pending_requests`, and the file system holding the cache file. -/
structure SvcState where
  cache : List (String × ExchangeRate)
  lastUpdate : Option ℚ
  pending : List String
  fs : FS
deriving Repr

/-- Model of `_is_cache_valid` (lines 226–235): the key must be in the
in-memory cache, a global last update must exist, and the age measured
from that single global timestamp must be strictly below `cache_ttl`. -/
def isCacheValid (s : SvcState) (cacheKey : String) (now : ℚ) (cacheTtl : ℚ) :
    Bool :=
  match dictGet s.cache cacheKey with
  | Option.none => false
  | some _ =>
    match s.lastUpdate with
    | Option.none => false
    | some t => decide (now - t < cacheTtl)

/-- How one `get_exchange_rate` call returns. -/
inductive GetRateResult
  | cachedHit (r : ExchangeRate)
  | joined (key : String)
  | value (r : ExchangeRate)
  | raised (e : PyExc)
deriving DecidableEq, Repr

/-- Model of one `get_exchange_rate(pair, update_cache)` call observed at
instant `now`, for the pair with cache key `key`.  `fetchResult` is the
outcome the awaited `_fetch_exchange_rate` task would produce and
`osWriteFails` injects a persistence failure into `_save_to_cache`.
The branches mirror the source: valid-cache fast path; join an already
pending request; otherwise run the fetch — on success store the rate in
`_cache`, set `_last_update`, persist (whose `CacheError` lands in the
same generic `except` as a fetch failure), on any exception return the
cached entry for the key if one exists, else re-raise. -/
def getExchangeRate (s : SvcState) (key : String) (updateCache : Bool)
    (now cacheTtl : ℚ) (currenciesFile : String)
    (fetchResult : Except PyExc ExchangeRate) (osWriteFails : Bool) :
    GetRateResult × SvcState :=
  if updateCache = false ∧ isCacheValid s key now cacheTtl = true then
    match dictGet s.cache key with
    | some r => (.cachedHit r, s)
    | Option.none => (.raised .keyError, s)
  else if key ∈ s.pending then
    (.joined key, s)
  else
    match fetchResult with
    | .ok rate =>
      (match saveToCache s.fs currenciesFile rate osWriteFails with
       | (.ok _, fs') =>
         (.value rate, ⟨dictSet s.cache key rate, some now, s.pending, fs'⟩)
       | (.error _, fs') =>
         match dictGet (dictSet s.cache key rate) key with
         | some r => (.value r, ⟨dictSet s.cache key rate, some now, s.pending, fs'⟩)
         | Option.none =>
           (.raised .keyError, ⟨dictSet s.cache key rate, some now, s.pending, fs'⟩))
    | .error e =>
      match dictGet s.cache key with
      | some r => (.value r, s)
      | Option.none => (.raised e, s)

/-! ## Request deduplication as an event trace (`exchange.py`, lines 97–109)

In asyncio the pending-request check, task creation and registration run
with no intervening await, so each arriving caller executes this prefix
atomically; the fetch completes at some later event.  `arriveStep` is that
prefix for a caller whose cache check failed. -/

/-- What the synchronous prefix decides for one arriving caller. -/
inductive CallerView
  | started (id : Nat)
  | joinedFetch (id : Nat)
deriving DecidableEq, Repr

/-- The per-key deduplication state: the id of the in-flight fetch task
registered in `_pending_requests` (if any), how many fetch tasks have been
started for this key, and a fresh-id counter. -/
structure DedupState where
  pending : Option Nat
  started : Nat
  nextId : Nat
deriving DecidableEq, Repr

/-- One caller arrives with an invalid cache: join the pending fetch if the
key is registered, otherwise create a fetch task and register it. -/
def arriveStep (s : DedupState) : DedupState × CallerView :=
  match s.pending with
  | some fid => (s, .joinedFetch fid)
  | Option.none =>
    ({ pending := some s.nextId, started := s.started + 1, nextId := s.nextId + 1 },
      .started s.nextId)

/-- `n` further callers arrive, in order. -/
def arriveMany (s : DedupState) : Nat → DedupState × List CallerView
  | 0 => (s, [])
  | n + 1 =>
    let p := arriveStep s
    let q := arriveMany p.1 n
    (q.1, p.2 :: q.2)

/-- The fetch registered for the key completes (success or failure): the
`finally` block removes it from `_pending_requests`. -/
def completeStep (s : DedupState) : DedupState := { s with pending := Option.none }

/-- What a caller observes after awaiting: the outcome of the fetch task
its view names. -/
def observeView (outcome : Nat → Except PyExc ExchangeRate) :
    CallerView → Except PyExc ExchangeRate
  | .started fid => outcome fid
  | .joinedFetch fid => outcome fid

/-! ## Lemmas: dictionaries and the file system -/

theorem dictGet_dictSet_self {α : Type} (xs : List (String × α)) (k : String) (v : α) :
    dictGet (dictSet xs k v) k = some v := by
  induction xs with
  | nil => simp [dictGet, dictSet]
  | cons p t ih =>
    obtain ⟨k', v'⟩ := p
    by_cases hk : k' = k
    · simp [dictGet, dictSet, hk]
    · simp [dictGet, dictSet, hk, ih]

theorem dictSet_append {α : Type} (xs : List (String × α)) (k : String) (v : α)
    (h : ∀ p ∈ xs, p.1 ≠ k) : dictSet xs k v = xs ++ [(k, v)] := by
  induction xs with
  | nil => rfl
  | cons p t ih =>
    obtain ⟨k', v'⟩ := p
    have hk : k' ≠ k := h (k', v') (by simp)
    simp only [dictSet, if_neg hk, List.cons_append, List.cons.injEq, true_and]
    exact ih (fun q hq => h q (by simp [hq]))

theorem dictGet_filter_ne {α : Type} (xs : List (String × α)) (k : String) :
    dictGet (xs.filter (fun p => p.1 ≠ k)) k = Option.none := by
  induction xs with
  | nil => rfl
  | cons p t ih =>
    obtain ⟨k', v'⟩ := p
    by_cases hk : k' = k
    · simpa [List.filter_cons, hk] using ih
    · simpa [List.filter_cons, hk, dictGet] using ih

theorem dictGet_filter_other {α : Type} (xs : List (String × α)) (k k' : String)
    (h : k' ≠ k) :
    dictGet (xs.filter (fun p => p.1 ≠ k)) k' = dictGet xs k' := by
  induction xs with
  | nil => rfl
  | cons p t ih =>
    obtain ⟨k₀, v₀⟩ := p
    by_cases hk : k₀ = k
    · subst hk
      rw [List.filter_cons_of_neg (by simp)]
      rw [ih]
      have hne : k₀ ≠ k' := fun e => h e.symm
      simp [dictGet, hne]
    · rw [List.filter_cons_of_pos (by simp [hk])]
      by_cases hkk : k₀ = k'
      · simp [dictGet, hkk]
      · simp only [dictGet, if_neg hkk]
        exact ih

theorem FS.read_write_self (fs : FS) (p : String) (v : PyVal) :
    (fs.write p v).read p = some v := dictGet_dictSet_self fs.files p v

theorem FS.read_remove_self (fs : FS) (p : String) :
    (fs.remove p).read p = Option.none := dictGet_filter_ne fs.files p

theorem FS.read_remove_other (fs : FS) (p q : String) (h : q ≠ p) :
    (fs.remove p).read q = fs.read q := dictGet_filter_other fs.files p q h

theorem FS.read_rename_dst (fs : FS) (src dst : String) (v : PyVal)
    (h : fs.read src = some v) : (fs.rename src dst).read dst = some v := by
  unfold FS.rename
  rw [h]
  exact FS.read_write_self _ dst v

/-- A path with the `.tmp` suffix appended differs from the path itself. -/
theorem tmp_ne_self (s : String) : s ++ ".tmp" ≠ s := by
  intro h
  have h2 : (s ++ ".tmp").data.length = s.data.length := by rw [h]
  rw [String.data_append, List.length_append] at h2
  have h3 : (".tmp" : String).data.length = 4 := rfl
  omega

/-- A successful atomic save leaves exactly the data at the destination. -/
theorem read_after_save (fs : FS) (path : String) (data : PyVal)
    (h : data.serializable = true) :
    (save_json_file_async fs path data false).1 = .ok () ∧
    (save_json_file_async fs path data false).2.read path = some data := by
  unfold save_json_file_async
  rw [if_neg (by simp [h])]
  simp only [Bool.false_eq_true, if_false]
  refine ⟨by simp, ?_⟩
  exact FS.read_rename_dst _ _ _ data (FS.read_write_self fs (path ++ ".tmp") data)

/-! ## Lemmas: the cache entry codec -/

theorem serializable_dict (xs : List (String × PyVal))
    (h : ∀ p ∈ xs, p.2.serializable = true) :
    (PyVal.dict xs).serializable = true := by
  rw [PyVal.serializable]
  induction xs with
  | nil => rfl
  | cons p t ih =>
    rw [serializableItems.eq_def]
    obtain ⟨k, v⟩ := p
    rw [Bool.and_eq_true]
    exact ⟨h (k, v) (by simp), ih (fun q hq => h q (by simp [hq]))⟩

theorem rateEntry_serializable (r : ExchangeRate) :
    (rateEntry r).serializable = true := rfl

/-- Decoding the entry written for a well-formed rate recovers the rate
exactly — in particular the decimal survives as a string. -/
theorem parseEntry_rateEntry (r : ExchangeRate) (h : wfRate r) :
    parseEntry (rateEntry r) = .ok r := by
  obtain ⟨hs, ht, hwf, hpos, hiso⟩ := h
  have h1 : getItem (rateEntry r) "source" = .ok (.str r.source) := by
    simp [getItem, rateEntry, dictGet]
  have h2 : getItem (rateEntry r) "target" = .ok (.str r.target) := by
    simp [getItem, rateEntry, dictGet]
  have h3 : getItem (rateEntry r) "rate" = .ok (.str (String.mk (pyDecStr r.rate))) := by
    simp [getItem, rateEntry, dictGet]
  have h4 : getItem (rateEntry r) "timestamp" = .ok (.str r.timestamp) := by
    simp [getItem, rateEntry, dictGet]
  have h5 : pyDecimalOfVal (.str (String.mk (pyDecStr r.rate))) = .ok r.rate := by
    simp only [pyDecimalOfVal]
    rw [pyDec_roundtrip r.rate hwf]
  have h6 : fromIsoFormat (.str r.timestamp) = .ok r.timestamp := by
    simp [fromIsoFormat, hiso]
  simp only [parseEntry, bind, Except.bind, h1, h2, h3, h4, h5, h6]
  simp only [mkExchangeRate, if_pos (And.intro hs (And.intro ht hpos))]

theorem foldl_dictSet_disjoint (rates : List ExchangeRate)
    (acc : List (String × PyVal))
    (hd : ∀ r ∈ rates, ∀ p ∈ acc, p.1 ≠ r.key)
    (hn : (rates.map ExchangeRate.key).Nodup) :
    rates.foldl (fun a r => dictSet a r.key (rateEntry r)) acc =
      acc ++ rates.map (fun r => (r.key, rateEntry r)) := by
  induction rates generalizing acc with
  | nil => simp
  | cons r rest ih =>
    simp only [List.foldl_cons, List.map_cons]
    rw [dictSet_append acc r.key (rateEntry r) (hd r (by simp))]
    rw [ih (acc ++ [(r.key, rateEntry r)])]
    · simp
    · intro r' hr' p hp
      rcases List.mem_append.mp hp with hp | hp
      · exact hd r' (by simp [hr']) p hp
      · simp only [List.mem_singleton] at hp
        subst hp
        intro he
        have he' : r.key = r'.key := he
        rw [List.map_cons, List.nodup_cons] at hn
        exact hn.1 (he' ▸ List.mem_map_of_mem ExchangeRate.key hr')
    · rw [List.map_cons, List.nodup_cons] at hn
      exact hn.2

theorem loadRatesLoop_map (rates : List ExchangeRate)
    (h : ∀ r ∈ rates, wfRate r) :
    loadRatesLoop (rates.map (fun r => (r.key, rateEntry r))) = .ok rates := by
  induction rates with
  | nil => rfl
  | cons r rest ih =>
    simp only [List.map_cons, loadRatesLoop]
    rw [parseEntry_rateEntry r (h r (by simp))]
    rw [ih (fun r' hr' => h r' (by simp [hr']))]
    rfl

theorem dictGet_dictSet_other {α : Type} (xs : List (String × α)) (k k' : String)
    (v : α) (h : k' ≠ k) : dictGet (dictSet xs k v) k' = dictGet xs k' := by
  have hne : ¬k = k' := fun e => h e.symm
  induction xs with
  | nil => simp [dictGet, dictSet, hne]
  | cons p t ih =>
    obtain ⟨k₀, v₀⟩ := p
    by_cases hk : k₀ = k
    · subst hk
      have hne : k₀ ≠ k' := fun e => h e.symm
      simp [dictGet, dictSet, hne]
    · simp [dictGet, dictSet, hk, ih]

theorem FS.read_write_other (fs : FS) (p q : String) (v : PyVal) (h : q ≠ p) :
    (fs.write p v).read q = fs.read q := dictGet_dictSet_other fs.files p q v h

/-- A successful save (serializable data, no OS failure) returns `ok` and
installs the data at the destination by the temp-write-then-rename. -/
theorem save_ok_eq (fs : FS) (path : String) (data : PyVal)
    (h : data.serializable = true) :
    save_json_file_async fs path data false =
      (.ok (), (fs.write (path ++ ".tmp") data).rename (path ++ ".tmp") path) := by
  unfold save_json_file_async
  rw [if_neg (by simp [h])]
  rfl

/-- An OS-level write failure on serializable data: `OSError` is raised and
the temp file has been removed again. -/
theorem save_fail_eq (fs : FS) (path : String) (data : PyVal)
    (h : data.serializable = true) :
    save_json_file_async fs path data true =
      (.error .osError, (fs.write (path ++ ".tmp") data).remove (path ++ ".tmp")) := by
  unfold save_json_file_async
  rw [if_neg (by simp [h])]
  rfl

/-- With an injected OS write failure, a save never succeeds: it raises
either the serialization `ValueError` or the write `OSError`. -/
theorem save_osfail_errors (fs : FS) (path : String) (data : PyVal) :
    (save_json_file_async fs path data true).1 = .error .valueError ∨
    (save_json_file_async fs path data true).1 = .error .osError := by
  by_cases h : data.serializable = true
  · right
    rw [save_fail_eq fs path data h]
  · left
    unfold save_json_file_async
    rw [if_pos (by simp [h])]

/-- `_save_to_cache` reduces to the save of the merged mapping with its
error wrapped in `CacheError`. -/
theorem saveToCache_eq (fs : FS) (currenciesFile : String) (r : ExchangeRate)
    (w : Bool) :
    saveToCache fs currenciesFile r w =
      match save_json_file_async fs currenciesFile
          (.dict (dictSet (load_json_file_async fs currenciesFile) r.key (rateEntry r)))
          w with
      | (.ok _, fs') => (.ok (), fs')
      | (.error e, fs') =>
        (.error (.cacheError ("Failed to save rate to cache: " ++ e.name)), fs') := rfl

/-- `_save_to_cache` under an injected persistence failure always raises a
`CacheError` (wrapping either the data error or the I/O error). -/
theorem saveToCache_fails (fs : FS) (currenciesFile : String) (r : ExchangeRate) :
    ∃ m, (saveToCache fs currenciesFile r true).1 = .error (.cacheError m) := by
  rw [saveToCache_eq]
  rcases hsv : save_json_file_async fs currenciesFile
      (.dict (dictSet (load_json_file_async fs currenciesFile) r.key (rateEntry r)))
      true with ⟨res, fs2⟩
  cases res with
  | ok u =>
    exfalso
    rcases save_osfail_errors fs currenciesFile
        (.dict (dictSet (load_json_file_async fs currenciesFile) r.key (rateEntry r)))
      with he | he <;> rw [hsv] at he <;> exact Except.noConfusion he
  | error e => exact ⟨_, rfl⟩

/-! ## Lemmas: the retry loop -/

theorem retrySim_calls_le (f : Nat → Except ε α) (b : ℚ) :
    ∀ remaining attempt, (retrySim f b remaining attempt).calls ≤ remaining := by
  intro remaining
  induction remaining with
  | zero => intro attempt; exact Nat.le_refl 0
  | succ m ih =>
    intro attempt
    simp only [retrySim]
    cases f attempt with
    | ok a => simp
    | error e =>
      by_cases hm : m = 0
      · simp [hm]
      · simp only [if_neg hm]
        exact Nat.succ_le_succ (ih (attempt + 1))

theorem retrySim_first_success (f : Nat → Except ε α) (b : ℚ) :
    ∀ remaining attempt k a, k < remaining →
      (∀ j, j < k → ∃ e, f (attempt + j) = .error e) →
      f (attempt + k) = .ok a →
      retrySim f b remaining attempt =
        ⟨some (.ok a), k + 1, (List.range k).map (fun j => b * 2 ^ (attempt + j))⟩ := by
  intro remaining
  induction remaining with
  | zero => intro attempt k a hk; omega
  | succ m ih =>
    intro attempt k a hk herr hok
    cases k with
    | zero =>
      rw [Nat.add_zero] at hok
      simp only [retrySim, hok, List.range_zero, List.map_nil]
    | succ k' =>
      obtain ⟨e, he⟩ := herr 0 (Nat.succ_pos k')
      rw [Nat.add_zero] at he
      have hm : m ≠ 0 := by omega
      simp only [retrySim, he, if_neg hm]
      rw [ih (attempt + 1) k' a (by omega)
        (fun j hj => by
          obtain ⟨e', he'⟩ := herr (j + 1) (by omega)
          exact ⟨e', by rw [← he']; congr 1; omega⟩)
        (by rw [← hok]; congr 1; omega)]
      simp only [RetryTrace.mk.injEq, true_and]
      rw [List.range_succ_eq_map, List.map_cons, List.map_map]
      simp only [List.cons.injEq]
      refine ⟨by rw [Nat.add_zero], ?_⟩
      refine List.map_congr_left ?_
      intro j hj
      simp only [Function.comp_apply]
      have hadd : attempt + 1 + j = attempt + j.succ := by omega
      rw [hadd]

theorem retrySim_all_fail (f : Nat → Except ε α) (b : ℚ) :
    ∀ remaining attempt, 1 ≤ remaining →
      (∀ j, j < remaining → ∃ e, f (attempt + j) = .error e) →
      ∃ e, f (attempt + (remaining - 1)) = .error e ∧
        retrySim f b remaining attempt =
          ⟨some (.error e), remaining,
            (List.range (remaining - 1)).map (fun j => b * 2 ^ (attempt + j))⟩ := by
  intro remaining
  induction remaining with
  | zero => intro attempt h1; omega
  | succ m ih =>
    intro attempt h1 herr
    obtain ⟨e0, he0⟩ := herr 0 (Nat.succ_pos m)
    rw [Nat.add_zero] at he0
    by_cases hm : m = 0
    · subst hm
      exact ⟨e0, by simpa using he0, by simp [retrySim, he0]⟩
    · obtain ⟨e, he, hsim⟩ := ih (attempt + 1) (by omega)
        (fun j hj => by
          obtain ⟨e', he'⟩ := herr (j + 1) (by omega)
          exact ⟨e', by rw [← he']; congr 1; omega⟩)
      refine ⟨e, by rw [← he]; congr 1; omega, ?_⟩
      simp only [retrySim, he0, if_neg hm, hsim]
      simp only [RetryTrace.mk.injEq, true_and]
      rw [show m + 1 - 1 = (m - 1) + 1 from by omega]
      rw [List.range_succ_eq_map, List.map_cons, List.map_map]
      simp only [List.cons.injEq]
      refine ⟨by rw [Nat.add_zero], ?_⟩
      refine List.map_congr_left ?_
      intro j hj
      simp only [Function.comp_apply]
      have hadd : attempt + 1 + j = attempt + j.succ := by omega
      rw [hadd]

/-! ## Lemmas: the load loop and the service -/

theorem loadRatesLoop_filterMap (entries : List (String × PyVal))
    (h : ∀ p ∈ entries,
      (match parseEntry p.2 with
       | .error e => caughtPerEntry e
       | .ok _ => true) = true) :
    loadRatesLoop entries =
      .ok (entries.filterMap (fun p =>
        match parseEntry p.2 with
        | .ok r => some r
        | .error _ => Option.none)) := by
  induction entries with
  | nil => rfl
  | cons p t ih =>
    obtain ⟨k, data⟩ := p
    have hp := h (k, data) (by simp)
    have iht := ih (fun q hq => h q (by simp [hq]))
    simp only [loadRatesLoop, List.filterMap_cons]
    cases hpe : parseEntry data with
    | ok r =>
      simp [hpe, iht]
      rfl
    | error e =>
      simp only at hp
      simp only [hpe] at hp
      simp [hp, hpe, iht]

theorem isCacheValid_iff (s : SvcState) (key : String) (now cacheTtl : ℚ) :
    isCacheValid s key now cacheTtl = true ↔
      (∃ r, dictGet s.cache key = some r) ∧
        ∃ t, s.lastUpdate = some t ∧ now - t < cacheTtl := by
  unfold isCacheValid
  cases hg : dictGet s.cache key <;> cases hl : s.lastUpdate <;> simp

theorem arriveMany_pending (s : DedupState) (fid : Nat) (h : s.pending = some fid) :
    ∀ n, arriveMany s n = (s, List.replicate n (.joinedFetch fid)) := by
  intro n
  induction n with
  | zero => rfl
  | succ m ih =>
    have hstep : arriveStep s = (s, .joinedFetch fid) := by
      unfold arriveStep
      rw [h]
    simp only [arriveMany, hstep, ih]
    rfl

/-- The valid-cache fast path of `get_exchange_rate`: with `update_cache`
false, a cached entry and a fresh global timestamp, the cached entry is
returned and nothing changes. -/
theorem getExchangeRate_fast (s : SvcState) (key : String) (now cacheTtl : ℚ)
    (currenciesFile : String) (fetchResult : Except PyExc ExchangeRate) (w : Bool)
    (r : ExchangeRate) (hC : isCacheValid s key now cacheTtl = true)
    (hr : dictGet s.cache key = some r) :
    getExchangeRate s key false now cacheTtl currenciesFile fetchResult w =
      (.cachedHit r, s) := by
  unfold getExchangeRate
  rw [if_pos ⟨rfl, hC⟩, hr]

/-- The fetch path of `get_exchange_rate` on a successful fetch reduces to
the save-then-fallback logic over the updated cache. -/
theorem getExchangeRate_fetch_ok (s : SvcState) (key : String) (u : Bool)
    (now cacheTtl : ℚ) (currenciesFile : String) (rate : ExchangeRate) (w : Bool)
    (h : ¬(u = false ∧ isCacheValid s key now cacheTtl = true))
    (hp : key ∉ s.pending) :
    getExchangeRate s key u now cacheTtl currenciesFile (.ok rate) w =
      match saveToCache s.fs currenciesFile rate w with
      | (.ok _, fs') =>
        (.value rate, ⟨dictSet s.cache key rate, some now, s.pending, fs'⟩)
      | (.error _, fs') =>
        match dictGet (dictSet s.cache key rate) key with
        | some r => (.value r, ⟨dictSet s.cache key rate, some now, s.pending, fs'⟩)
        | Option.none =>
          (.raised .keyError, ⟨dictSet s.cache key rate, some now, s.pending, fs'⟩) := by
  unfold getExchangeRate
  rw [if_neg h, if_neg hp]

/-- The fetch path of `get_exchange_rate` on a failed fetch reduces to the
stale-cache fallback. -/
theorem getExchangeRate_fetch_err (s : SvcState) (key : String) (u : Bool)
    (now cacheTtl : ℚ) (currenciesFile : String) (e : PyExc) (w : Bool)
    (h : ¬(u = false ∧ isCacheValid s key now cacheTtl = true))
    (hp : key ∉ s.pending) :
    getExchangeRate s key u now cacheTtl currenciesFile (.error e) w =
      match dictGet s.cache key with
      | some r => (.value r, s)
      | Option.none => (.raised e, s) := by
  unfold getExchangeRate
  rw [if_neg h, if_neg hp]

/-- Outside the valid-cache fast path, `get_exchange_rate` never returns
through the cached-hit branch. -/
theorem getExchangeRate_no_hit (s : SvcState) (key : String) (u : Bool)
    (now cacheTtl : ℚ) (currenciesFile : String)
    (fetchResult : Except PyExc ExchangeRate) (w : Bool)
    (h : ¬(u = false ∧ isCacheValid s key now cacheTtl = true)) :
    ∀ r, (getExchangeRate s key u now cacheTtl currenciesFile fetchResult w).1 ≠
      .cachedHit r := by
  intro r
  by_cases hp : key ∈ s.pending
  · unfold getExchangeRate
    rw [if_neg h, if_pos hp]
    intro hres
    simp at hres
  · cases fetchResult with
    | ok rate =>
      rw [getExchangeRate_fetch_ok s key u now cacheTtl currenciesFile rate w h hp]
      rcases hsv : saveToCache s.fs currenciesFile rate w with ⟨res, fs2⟩
      cases res with
      | ok u' =>
        intro hres
        simp at hres
      | error e' =>
        rcases hdg : dictGet (dictSet s.cache key rate) key with _ | r' <;>
          intro hres <;> simp at hres
    | error e =>
      rw [getExchangeRate_fetch_err s key u now cacheTtl currenciesFile e w h hp]
      rcases hdg : dictGet s.cache key with _ | r' <;>
        intro hres <;> simp at hres

/-! ## Example data for concrete instantiations -/

/-- A well-formed rate: `USD/EUR` at `Decimal("0.85")`. -/
def exampleRate : ExchangeRate :=
  ⟨"USD", "EUR", ⟨false, [8, 5], -2⟩, "2024-01-01T00:00:00+00:00"⟩

/-- A cache entry whose timestamp string is malformed (raises `ValueError`,
which the per-entry handler catches). -/
def exampleBadTsEntry : PyVal :=
  .dict [("source", .str "USD"), ("target", .str "EUR"),
         ("rate", .str "0.85"), ("timestamp", .str "nope")]

/-- A cache entry whose rate string is not a valid decimal (raises
`decimal.InvalidOperation`, which the per-entry handler does not catch). -/
def exampleBadRateEntry : PyVal :=
  .dict [("source", .str "USD"), ("target", .str "EUR"),
         ("rate", .str "abc"), ("timestamp", .str "2024-01-01T00:00:00+00:00")]

/-- A cache file holding one skippable entry and one good entry. -/
def exampleLoadFS : FS :=
  ⟨[("currencies.json",
     .dict [("USD_EUR", exampleBadTsEntry), ("USD_EUR2", rateEntry exampleRate)])]⟩

/-! ## The claims -/

/-- C1: for a key with no fetch in flight, the first arriving caller starts
exactly one fetch task; every caller arriving before that fetch completes
joins the in-flight fetch instead of issuing another — the started-fetch
count rises by exactly one — and each such caller observes that same
fetch's outcome. -/
theorem dedup_single_fetch (s : DedupState) (n : Nat)
    (outcome : Nat → Except PyExc ExchangeRate) (h : s.pending = Option.none) :
    (arriveStep s).2 = .started s.nextId ∧
    (arriveMany (arriveStep s).1 n).1.started = s.started + 1 ∧
    (arriveMany (arriveStep s).1 n).2 =
      List.replicate n (.joinedFetch s.nextId) ∧
    ∀ v ∈ (arriveMany (arriveStep s).1 n).2,
      observeView outcome v = outcome s.nextId := by
  have hstep : arriveStep s =
      (⟨some s.nextId, s.started + 1, s.nextId + 1⟩, .started s.nextId) := by
    unfold arriveStep
    rw [h]
  have hmany := arriveMany_pending ⟨some s.nextId, s.started + 1, s.nextId + 1⟩
    s.nextId rfl n
  simp only [hstep, hmany]
  refine ⟨trivial, trivial, trivial, ?_⟩
  intro v hv
  rw [List.eq_of_mem_replicate hv]
  rfl

theorem dedup_single_fetch_witness :
    (arriveMany (arriveStep ⟨Option.none, 0, 0⟩).1 2).2 =
      List.replicate 2 (.joinedFetch 0) :=
  (dedup_single_fetch ⟨Option.none, 0, 0⟩ 2
    (fun _ => Except.error PyExc.keyError) rfl).2.2.1

/-- C2: when the call reaches the fetch itself (cache not valid for the
key, no pending request to join) and the fetch fails: if the in-memory
cache holds an entry for the key, that possibly stale entry is returned
and no error escapes; if not, the fetch's error object is re-raised
unchanged.  The service state is untouched either way. -/
theorem fetch_failure_fallback (s : SvcState) (key : String) (updateCache : Bool)
    (now cacheTtl : ℚ) (currenciesFile : String) (e : PyExc) (w : Bool)
    (hpath : ¬(updateCache = false ∧ isCacheValid s key now cacheTtl = true))
    (hpend : key ∉ s.pending) :
    (∀ r, dictGet s.cache key = some r →
      getExchangeRate s key updateCache now cacheTtl currenciesFile (.error e) w =
        (.value r, s)) ∧
    (dictGet s.cache key = Option.none →
      getExchangeRate s key updateCache now cacheTtl currenciesFile (.error e) w =
        (.raised e, s)) := by
  constructor
  · intro r hr
    rw [getExchangeRate_fetch_err s key updateCache now cacheTtl currenciesFile e w
      hpath hpend, hr]
  · intro hn
    rw [getExchangeRate_fetch_err s key updateCache now cacheTtl currenciesFile e w
      hpath hpend, hn]

theorem fetch_failure_fallback_witness :
    getExchangeRate ⟨[("USD_EUR", exampleRate)], Option.none, [], ⟨[]⟩⟩ "USD_EUR"
        true 0 300 "currencies.json" (.error (.apiError "down")) false =
      (.value exampleRate, ⟨[("USD_EUR", exampleRate)], Option.none, [], ⟨[]⟩⟩) :=
  (fetch_failure_fallback ⟨[("USD_EUR", exampleRate)], Option.none, [], ⟨[]⟩⟩
    "USD_EUR" true 0 300 "currencies.json" (.apiError "down") false
    (by simp) (by simp)).1 exampleRate rfl

/-- C3 counterexample: fetch succeeds, persisting fails — yet the call
returns the fresh rate instead of re-raising the `CacheError`: the generic
`except` handler finds the entry just stored at line 113 and falls back to
it, so no error reaches the caller. -/
theorem cacheError_swallowed_cex :
    getExchangeRate ⟨[], Option.none, [], ⟨[]⟩⟩ "USD_EUR" false 0 300
        "currencies.json" (.ok exampleRate) true =
      (.value exampleRate,
        ⟨[("USD_EUR", exampleRate)], some 0, [], ⟨[]⟩⟩) := rfl

/-- C3 amended: if the fetch succeeds and `_save_to_cache` fails (it does
raise a `CacheError`), the in-memory update still takes effect — the entry
is stored and the global timestamp set — but the `CacheError` is swallowed
by the stale-cache fallback, which returns the freshly stored rate; no
error escapes to the caller. -/
theorem cacheError_swallowed (s : SvcState) (key : String) (updateCache : Bool)
    (now cacheTtl : ℚ) (currenciesFile : String) (rate : ExchangeRate)
    (hpath : ¬(updateCache = false ∧ isCacheValid s key now cacheTtl = true))
    (hpend : key ∉ s.pending) :
    (∃ m, (saveToCache s.fs currenciesFile rate true).1 =
      .error (.cacheError m)) ∧
    (getExchangeRate s key updateCache now cacheTtl currenciesFile
        (.ok rate) true).1 = .value rate ∧
    (getExchangeRate s key updateCache now cacheTtl currenciesFile
        (.ok rate) true).2.cache = dictSet s.cache key rate ∧
    (getExchangeRate s key updateCache now cacheTtl currenciesFile
        (.ok rate) true).2.lastUpdate = some now := by
  refine ⟨saveToCache_fails s.fs currenciesFile rate, ?_⟩
  rw [getExchangeRate_fetch_ok s key updateCache now cacheTtl currenciesFile rate true
    hpath hpend]
  obtain ⟨m, hm⟩ := saveToCache_fails s.fs currenciesFile rate
  rcases hsv : saveToCache s.fs currenciesFile rate true with ⟨res, fs2⟩
  rw [hsv] at hm
  simp only at hm
  subst hm
  rw [dictGet_dictSet_self s.cache key rate]
  exact ⟨rfl, rfl, rfl⟩

theorem cacheError_swallowed_witness :
    (getExchangeRate ⟨[], Option.none, [], ⟨[]⟩⟩ "USD_EUR" false 0 300
        "currencies.json" (.ok exampleRate) true).1 = .value exampleRate :=
  (cacheError_swallowed ⟨[], Option.none, [], ⟨[]⟩⟩ "USD_EUR" false 0 300
    "currencies.json" exampleRate (by simp [isCacheValid, dictGet]) (by simp)).2.1

/-- C4: with `update_cache` false, `get_exchange_rate` returns through the
cached fast path — the in-memory value, no remote involvement — exactly
when the key is in the in-memory cache AND the age measured from the single
global `_last_update` timestamp is strictly below `cache_ttl`; whenever no
successful update has happened yet (`_last_update` is `None`) the fast path
is never taken.  This holds for every fetch outcome, showing the fast path
consults no remote call. -/
theorem cache_fast_path_iff (s : SvcState) (key : String) (now cacheTtl : ℚ)
    (currenciesFile : String) (fetchResult : Except PyExc ExchangeRate) (w : Bool) :
    (∀ r, (getExchangeRate s key false now cacheTtl currenciesFile
        fetchResult w).1 = .cachedHit r ↔
      (dictGet s.cache key = some r ∧
        ∃ t, s.lastUpdate = some t ∧ now - t < cacheTtl)) ∧
    (s.lastUpdate = Option.none →
      ∀ r, (getExchangeRate s key false now cacheTtl currenciesFile
        fetchResult w).1 ≠ .cachedHit r) := by
  have main : ∀ r, (getExchangeRate s key false now cacheTtl currenciesFile
      fetchResult w).1 = .cachedHit r ↔
      (dictGet s.cache key = some r ∧
        ∃ t, s.lastUpdate = some t ∧ now - t < cacheTtl) := by
    intro r
    constructor
    · intro hres
      by_cases hC : isCacheValid s key now cacheTtl = true
      · obtain ⟨⟨r', hr'⟩, t, hlu, hlt⟩ := (isCacheValid_iff s key now cacheTtl).mp hC
        have heq := getExchangeRate_fast s key now cacheTtl currenciesFile
          fetchResult w r' hC hr'
        rw [heq] at hres
        have hinj : GetRateResult.cachedHit r' = .cachedHit r := hres
        injection hinj with hrr
        subst hrr
        exact ⟨hr', t, hlu, hlt⟩
      · exact absurd hres (getExchangeRate_no_hit s key false now cacheTtl
          currenciesFile fetchResult w (by simp [hC]) r)
    · rintro ⟨hr, t, hlu, hlt⟩
      have hC : isCacheValid s key now cacheTtl = true :=
        (isCacheValid_iff s key now cacheTtl).mpr ⟨⟨r, hr⟩, t, hlu, hlt⟩
      rw [getExchangeRate_fast s key now cacheTtl currenciesFile fetchResult w r hC hr]
  refine ⟨main, ?_⟩
  intro hlu r hres
  obtain ⟨-, t, hlu', -⟩ := (main r).mp hres
  rw [hlu] at hlu'
  cases hlu'

theorem cache_fast_path_iff_witness :
    (getExchangeRate ⟨[("USD_EUR", exampleRate)], some 0, [], ⟨[]⟩⟩ "USD_EUR"
        false 10 300 "currencies.json" (.error .keyError) false).1 =
      .cachedHit exampleRate :=
  ((cache_fast_path_iff ⟨[("USD_EUR", exampleRate)], some 0, [], ⟨[]⟩⟩ "USD_EUR"
    10 300 "currencies.json" (.error .keyError) false).1 exampleRate).mpr
    ⟨rfl, 0, rfl, by norm_num⟩

/-- C5 counterexample: with capacity 10 and 3 elapsed seconds the
specification's refill is the fraction `1/2` token, but the limiter's
refill `int(time_passed * capacity / 60)` truncates it to the integer `0`
— the refill is not the exact fractional quantity. -/
theorem limiter_fractional_refill_cex :
    tokensToAdd ⟨10, 0, 0⟩ 3 = 0 ∧
    specFractionalRefill 10 (3 - 0) = 1 / 2 ∧
    ((tokensToAdd ⟨10, 0, 0⟩ 3 : ℚ) ≠ specFractionalRefill 10 (3 - 0)) := by
  have h1 : tokensToAdd ⟨10, 0, 0⟩ 3 = 0 := by
    show pyInt ((3 - 0) * ((10 : Int) : ℚ) / 60) = 0
    rw [pyInt]
    norm_num
  have h2 : specFractionalRefill 10 (3 - 0) = 1 / 2 := by
    rw [specFractionalRefill]
    norm_num
  refine ⟨h1, h2, ?_⟩
  rw [h1, h2]
  norm_num

/-- C5 amended: on each `acquire`, the limiter refills by the integer
truncation `⌊elapsed * capacity / 60⌋` of the spec's fractional quantity
(not the fraction itself), caps the total at capacity, updates
`last_refill` to the current instant, and only then consumes one token
(crediting one extra token after the sleep when none was available), so
the stored count stays strictly below capacity. -/
theorem limiter_truncated_refill (s : LimiterState) (now : ℚ)
    (h : s.lastRefill ≤ now) (hcap : 1 ≤ s.requestsPerMinute) :
    tokensToAdd s now =
      ⌊specFractionalRefill s.requestsPerMinute (now - s.lastRefill)⌋ ∧
    (RateLimiter.acquire s now).1.lastRefill = now ∧
    (RateLimiter.acquire s now).1.tokens + 1 =
      min s.requestsPerMinute (s.tokens + tokensToAdd s now) +
        (if min s.requestsPerMinute (s.tokens + tokensToAdd s now) ≤ 0
         then 1 else 0) ∧
    (RateLimiter.acquire s now).1.tokens < s.requestsPerMinute := by
  have hq : (0 : ℚ) ≤ (now - s.lastRefill) * (s.requestsPerMinute : ℚ) / 60 := by
    apply div_nonneg _ (by norm_num)
    apply mul_nonneg (by linarith)
    exact_mod_cast le_trans (by norm_num) hcap
  have h1 : tokensToAdd s now =
      ⌊specFractionalRefill s.requestsPerMinute (now - s.lastRefill)⌋ := by
    rw [tokensToAdd, pyInt, specFractionalRefill, if_neg (not_lt.mpr hq)]
  refine ⟨h1, ?_, ?_, ?_⟩ <;> rw [RateLimiter.acquire] <;>
    rcases le_or_lt (min s.requestsPerMinute (s.tokens + tokensToAdd s now)) 0
      with hle | hlt
  · rw [if_pos hle]
  · rw [if_neg (not_le.mpr hlt)]
  · rw [if_pos hle]
    simp only [if_pos hle]
    omega
  · rw [if_neg (not_le.mpr hlt)]
    simp only [if_neg (not_le.mpr hlt)]
    omega
  · rw [if_pos hle]
    simp only []
    omega
  · rw [if_neg (not_le.mpr hlt)]
    simp only []
    have : min s.requestsPerMinute (s.tokens + tokensToAdd s now) ≤
        s.requestsPerMinute := min_le_left _ _
    omega

theorem limiter_truncated_refill_witness :
    (RateLimiter.acquire ⟨10, 0, 0⟩ 3).1.lastRefill = 3 :=
  (limiter_truncated_refill ⟨10, 0, 0⟩ 3 (by norm_num) (by norm_num)).2.1

/-- C6: `retry_with_backoff` invokes the operation at most `max_retries`
times; it returns the first successful outcome with exactly that many
invocations, having slept `base_delay * 2 ^ attempt` after failed attempt
number `attempt`; and when every attempt fails, the error value of the
final attempt is re-raised unchanged after exactly `max_retries`
invocations. -/
theorem retry_backoff_spec {ε α : Type} (f : Nat → Except ε α)
    (maxRetries : Nat) (baseDelay : ℚ) (hmax : 1 ≤ maxRetries) :
    (retry_with_backoff f maxRetries baseDelay).calls ≤ maxRetries ∧
    (∀ k a, k < maxRetries → (∀ j, j < k → ∃ e, f j = .error e) →
      f k = .ok a →
      retry_with_backoff f maxRetries baseDelay =
        ⟨some (.ok a), k + 1,
          (List.range k).map (fun j => baseDelay * 2 ^ j)⟩) ∧
    ((∀ j, j < maxRetries → ∃ e, f j = .error e) →
      ∃ e, f (maxRetries - 1) = .error e ∧
        retry_with_backoff f maxRetries baseDelay =
          ⟨some (.error e), maxRetries,
            (List.range (maxRetries - 1)).map (fun j => baseDelay * 2 ^ j)⟩) := by
  refine ⟨retrySim_calls_le f baseDelay maxRetries 0, ?_, ?_⟩
  · intro k a hk herr hok
    have h := retrySim_first_success f baseDelay maxRetries 0 k a hk
      (fun j hj => by simpa using herr j hj) (by simpa using hok)
    simpa [retry_with_backoff] using h
  · intro herr
    obtain ⟨e, he, hsim⟩ := retrySim_all_fail f baseDelay maxRetries 0 hmax
      (fun j hj => by simpa using herr j hj)
    exact ⟨e, by simpa using he, by simpa [retry_with_backoff] using hsim⟩

theorem retry_backoff_spec_witness :
    retry_with_backoff
        (fun k => if k = 0 then (Except.error PyExc.osError : Except PyExc Nat)
          else .ok 5) 3 1 =
      ⟨some (.ok 5), 1 + 1, (List.range 1).map (fun j => (1 : ℚ) * 2 ^ j)⟩ :=
  (retry_backoff_spec
    (fun k => if k = 0 then (Except.error PyExc.osError : Except PyExc Nat)
      else .ok 5) 3 1 (by norm_num)).2.1 1 5 (by norm_num)
    (fun j hj => ⟨.osError, by
      have hj0 : j = 0 := by omega
      subst hj0
      rfl⟩) rfl

/-- C7: saving a mapping of exchange-rate entries (well-formed rates with
distinct cache keys) to the cache file and loading it back yields every
entry with every field exactly as written — the decimal rate travels as a
string through `str(Decimal)` and `Decimal(str)` and never through
floating point. -/
theorem cache_roundtrip (fs : FS) (currenciesFile : String)
    (rates : List ExchangeRate) (hwf : ∀ r ∈ rates, wfRate r)
    (hnd : (rates.map ExchangeRate.key).Nodup) :
    (saveAllToCache fs currenciesFile rates false).1 = .ok () ∧
    loadFromCache (saveAllToCache fs currenciesFile rates false).2
      currenciesFile = .ok rates := by
  have hmap : rates.foldl (fun a r => dictSet a r.key (rateEntry r)) [] =
      rates.map (fun r => (r.key, rateEntry r)) := by
    simpa using foldl_dictSet_disjoint rates [] (by simp) hnd
  have hser : (PyVal.dict
      (rates.map (fun r => (r.key, rateEntry r)))).serializable = true := by
    refine serializable_dict _ ?_
    intro p hp
    obtain ⟨r, hr, hpr⟩ := List.mem_map.mp hp
    rw [← hpr]
    exact rateEntry_serializable r
  have hone : saveAllToCache fs currenciesFile rates false =
      (.ok (), (fs.write (currenciesFile ++ ".tmp")
          (.dict (rates.map (fun r => (r.key, rateEntry r))))).rename
        (currenciesFile ++ ".tmp") currenciesFile) := by
    show (match save_json_file_async fs currenciesFile
        (.dict (rates.foldl (fun a r => dictSet a r.key (rateEntry r)) [])) false with
      | (.ok _, fs') => ((.ok (), fs') : Except PyExc Unit × FS)
      | (.error e, fs') =>
        (.error (.cacheError ("Failed to save all rates to cache: " ++ e.name)),
          fs')) = _
    rw [hmap, save_ok_eq _ _ _ hser]
  rw [hone]
  refine ⟨rfl, ?_⟩
  show loadFromCache ((fs.write (currenciesFile ++ ".tmp")
      (.dict (rates.map (fun r => (r.key, rateEntry r))))).rename
    (currenciesFile ++ ".tmp") currenciesFile) currenciesFile = .ok rates
  have hread := FS.read_rename_dst
    (fs.write (currenciesFile ++ ".tmp")
      (.dict (rates.map (fun r => (r.key, rateEntry r)))))
    (currenciesFile ++ ".tmp") currenciesFile _
    (FS.read_write_self fs (currenciesFile ++ ".tmp")
      (.dict (rates.map (fun r => (r.key, rateEntry r)))))
  unfold loadFromCache load_json_file_async
  rw [hread, loadRatesLoop_map rates hwf]

theorem cache_roundtrip_witness :
    loadFromCache (saveAllToCache ⟨[]⟩ "currencies.json" [exampleRate] false).2
      "currencies.json" = .ok [exampleRate] :=
  (cache_roundtrip ⟨[]⟩ "currencies.json" [exampleRate]
    (by decide) (by decide)).2

/-- C8: a non-serializable value makes `save_json_file_async` raise the
data error (`ValueError`) before any disk write — the file system is
untouched, so neither the destination nor a temp file is created or
modified; an OS-level write failure after a successful serializability
check raises an I/O error (`OSError`), the temp file is removed again, and
the destination's previous content is intact. -/
theorem save_error_atomicity (fs : FS) (path : String) (data : PyVal) :
    (data.serializable = false →
      ∀ w : Bool, save_json_file_async fs path data w =
        (.error .valueError, fs)) ∧
    (data.serializable = true →
      (save_json_file_async fs path data true).1 = .error .osError ∧
      (save_json_file_async fs path data true).2.read (path ++ ".tmp") =
        Option.none ∧
      (save_json_file_async fs path data true).2.read path = fs.read path) := by
  constructor
  · intro h w
    unfold save_json_file_async
    rw [if_pos (by simp [h])]
  · intro h
    rw [save_fail_eq fs path data h]
    refine ⟨rfl, FS.read_remove_self _ _, ?_⟩
    rw [FS.read_remove_other _ _ _ (fun e => tmp_ne_self path e.symm)]
    exact FS.read_write_other fs (path ++ ".tmp") path data
      (fun e => tmp_ne_self path e.symm)

theorem save_error_atomicity_witness :
    (PyVal.obj "Decimal").serializable = false ∧
    save_json_file_async ⟨[("currencies.json", .dict [])]⟩ "currencies.json"
        (.obj "Decimal") true =
      (.error .valueError, ⟨[("currencies.json", .dict [])]⟩) :=
  ⟨rfl, (save_error_atomicity ⟨[("currencies.json", .dict [])]⟩
    "currencies.json" (.obj "Decimal")).1 rfl true⟩

/-- C9: with `max_retries = 0` the `for attempt in range(max_retries)` body
never runs: the wrapped operation is never invoked, no delay is slept, and
the function falls through the loop returning `None` rather than a result
or an error. -/
theorem retry_zero_retries {ε α : Type} (f : Nat → Except ε α) (baseDelay : ℚ) :
    retry_with_backoff f 0 baseDelay = ⟨Option.none, 0, []⟩ := rfl

/-- C10 counterexample: a single cache entry whose rate string is not a
valid decimal makes the whole load fail with `CacheError` instead of being
skipped: `Decimal("abc")` raises `decimal.InvalidOperation`, an
`ArithmeticError` that the per-entry `(ValidationError, KeyError,
ValueError)` handler does not catch. -/
theorem load_corrupt_entry_cex :
    loadFromCache ⟨[("currencies.json", .dict [("USD_EUR", exampleBadRateEntry)])]⟩
        "currencies.json" =
      .error (.cacheError "Failed to load rates from cache: InvalidOperation") :=
  rfl

/-- C10 amended: entries failing with one of the caught classes —
`ValidationError` (model validation), `KeyError` (missing field) or
`ValueError` (malformed timestamp) — are skipped with a warning while all
other entries are constructed and returned in order; but an entry whose
failure is of an uncaught class (such as `decimal.InvalidOperation` from
an unparseable rate string) aborts the whole load.  Provided every failing
entry fails with a caught class, the load returns exactly the
successfully parsed entries. -/
theorem load_skips_caught_entries (fs : FS) (currenciesFile : String)
    (h : ∀ p ∈ load_json_file_async fs currenciesFile,
      (match parseEntry p.2 with
       | .error e => caughtPerEntry e
       | .ok _ => true) = true) :
    loadFromCache fs currenciesFile =
      .ok ((load_json_file_async fs currenciesFile).filterMap (fun p =>
        match parseEntry p.2 with
        | .ok r => some r
        | .error _ => Option.none)) := by
  unfold loadFromCache
  rw [loadRatesLoop_filterMap (load_json_file_async fs currenciesFile) h]

theorem load_skips_caught_entries_witness :
    loadFromCache exampleLoadFS "currencies.json" = .ok [exampleRate] :=
  (load_skips_caught_entries exampleLoadFS "currencies.json" (by decide)).trans rfl

end WiseRate
